import Mathlib

/-!
Shallow embedding of the schedule enumeration and constraint engine of
`scheduleweb` (files `scheduler/scheduler.py`, `scheduler/prof_scoring.py`,
`scheduler/gatherer.py`), together with theorems settling the frozen claims
about that engine.

Modelling conventions:
* Python dicts whose values are iterated in insertion order are modelled as
  Lean lists of those values (or association lists where keys are looked up).
* Machine integers are `Nat` or `Int`; the timestamps never overflow in the
  source, so no modular arithmetic is needed.
* Numeric scores (Python floats) are modelled as rationals; `round4` models
  the rounding to four decimal places of `round(x, 4)`.
-/

namespace Scheduler

/-- Enrollment status of a component, from `models.py` (`Component.status`). -/
inductive Status where
  | OPEN
  | CLOSED
  | FULL
  | WAITLIST
deriving DecidableEq, Repr

/-- Component type, from `models.py` (`Component.type`). -/
inductive CompType where
  | LEC
  | LAB
  | TUT
  | DGD
  | SEM
  | WRK
deriving DecidableEq, Repr

/-- Weekday code, from `models.py` (`Component.day`). -/
inductive Day where
  | MO
  | TU
  | WE
  | TH
  | FR
  | SA
  | SU
deriving DecidableEq, Repr

/-- A single bookable class meeting, from `models.py` (`Component`).
Only the fields the core engine reads are modelled; presentation-only
fields (times as strings, room, dates, description) are dropped. -/
structure Component where
  id : String
  label : String
  status : Status
  type : CompType
  day : Day
  start_timestamp : Nat
  end_timestamp : Nat
  instructor : String
deriving DecidableEq, Repr

/-- A course section, from `models.py` (`Section`). The Python `components`
dict is modelled as the list of its values in iteration order; the guid keys
are never read by the engine. -/
structure Section where
  id : String
  label : String
  instructor : String
  components : List Component
deriving DecidableEq, Repr

/-- Day-to-index map `DAY_MAP` of `scheduler.py`. -/
def DAY_MAP : Day → Nat
  | Day.MO => 0
  | Day.TU => 1
  | Day.WE => 2
  | Day.TH => 3
  | Day.FR => 4
  | Day.SA => 5
  | Day.SU => 6

/-- Time triple (day index, start minutes, end minutes) built by
`component_to_time_tuple` in `scheduler.py`. -/
structure TimeTuple where
  day : Nat
  startM : Nat
  endM : Nat
deriving DecidableEq, Repr

/-- `component_to_time_tuple` of `scheduler.py`: day index and timestamps
divided by 60 (integer division). -/
def component_to_time_tuple (c : Component) : TimeTuple :=
  ⟨DAY_MAP c.day, c.start_timestamp / 60, c.end_timestamp / 60⟩

/-- `times_conflict` of `scheduler.py`:
`t1[0] == t2[0] and not (t1[2] <= t2[1] or t2[2] <= t1[1])`. -/
def times_conflict (t1 t2 : TimeTuple) : Bool :=
  decide (t1.day = t2.day) &&
    !(decide (t1.endM ≤ t2.startM) || decide (t2.endM ≤ t1.startM))

/-- The components of a given type, in list order; models the per-type
grouping dicts of `generate_section_options` (grouping a list by type and
reading one bucket is filtering the list by that type). -/
def compsOfType (t : CompType) (cs : List Component) : List Component :=
  cs.filter fun c => decide (c.type = t)

/-- The components whose status is OPEN, in list order. -/
def openComps (cs : List Component) : List Component :=
  cs.filter fun c => decide (c.status = Status.OPEN)

/-- The non-lecture component types checked by `generate_section_options`,
in source order. -/
def nonLecTypes : List CompType :=
  [CompType.LAB, CompType.TUT, CompType.DGD, CompType.SEM, CompType.WRK]

/-- The per-type choice lists (`lab_choices`, `tut_choices`, ...) of
`generate_section_options`: singletons of each OPEN component when the
section offers the type at all, and the single empty choice otherwise. -/
def choicesFor (s : Section) (t : CompType) : List (List Component) :=
  if 0 < (compsOfType t s.components).length then
    (compsOfType t (openComps s.components)).map fun c => [c]
  else [[]]

/-- Cartesian product of a list of lists, enumerated with the first
coordinate varying slowest; models `itertools.product`. -/
def listProd {α : Type} : List (List α) → List (List α)
  | [] => [[]]
  | xs :: rest => xs.flatMap fun x => (listProd rest).map fun ys => x :: ys

/-- One option produced by `generate_section_options`: the dict
`\x7b'section': section, 'components': all_components\x7d`. -/
structure SectionOption where
  sec : Section
  components : List Component
deriving DecidableEq, Repr

/-- `generate_section_options` of `scheduler.py`: discard the section when a
lecture is not OPEN or an offered non-lecture type has no OPEN instance,
otherwise emit all OPEN lectures combined with the product of per-type
choices. -/
def generate_section_options (s : Section) : List SectionOption :=
  if 0 < (compsOfType CompType.LEC s.components).length ∧
      (compsOfType CompType.LEC s.components).length ≠
        (compsOfType CompType.LEC (openComps s.components)).length then
    []
  else if ∃ t ∈ nonLecTypes, 0 < (compsOfType t s.components).length ∧
      (compsOfType t (openComps s.components)).length = 0 then
    []
  else
    (listProd (nonLecTypes.map (choicesFor s))).map fun parts =>
      ⟨s, compsOfType CompType.LEC (openComps s.components) ++ parts.flatten⟩

/-- Language tag attached to an option by `generate_all_schedules`. -/
inductive Lang where
  | english
  | french
deriving DecidableEq, Repr

/-- An option dict after `generate_all_schedules` has added the
`language` and `course_code` keys. -/
structure EnrollmentOption where
  sec : Section
  components : List Component
  language : Lang
  course_code : String
deriving DecidableEq, Repr

/-- A schedule combination: one enrollment option per course, in course
order. -/
abbrev Schedule := List EnrollmentOption

/-- The per-course section data handed to `generate_all_schedules`: the
values of the `english` and `french` section dicts, in iteration order. -/
structure LangSections where
  english : List Section
  french : List Section
deriving DecidableEq, Repr

/-- The tagging loops of `generate_all_schedules`: every option of every
section of one language list, tagged with that language and the course
code. -/
def tagOptions (lang : Lang) (code : String) (secs : List Section) :
    List EnrollmentOption :=
  secs.flatMap fun s => (generate_section_options s).map fun o =>
    ⟨o.sec, o.components, lang, code⟩

/-- All options of one course: English sections first, then French, as in
`generate_all_schedules`. -/
def courseOptions (code : String) (ls : LangSections) : List EnrollmentOption :=
  tagOptions Lang.english code ls.english ++ tagOptions Lang.french code ls.french

/-- The inline language count of `generate_all_schedules`:
`sum(1 for opt in combo if opt['language'] == lang)`. -/
def langCount (lang : Lang) (combo : Schedule) : Nat :=
  (combo.filter fun o => decide (o.language = lang)).length

/-- `has_weekend_classes` of `scheduler.py`. -/
def has_weekend_classes (combo : Schedule) : Bool :=
  combo.any fun o => o.components.any fun c =>
    decide (c.day = Day.SA) || decide (c.day = Day.SU)

/-- `count_unique_days` of `scheduler.py`: the number of distinct days with
classes (every modelled component has a day, so the truthiness guard of the
source never skips anything). -/
def count_unique_days (combo : Schedule) : Nat :=
  ((combo.flatMap fun o => o.components).map fun c => c.day).dedup.length

/-- The flattened `all_times` list built by `generate_all_schedules`. -/
def allTimes (combo : Schedule) : List TimeTuple :=
  (combo.flatMap fun o => o.components).map component_to_time_tuple

/-- The all-pairs conflict loop of `generate_all_schedules`: true iff some
pair at distinct positions conflicts. -/
def hasConflict : List TimeTuple → Bool
  | [] => false
  | t :: rest => rest.any (times_conflict t) || hasConflict rest

/-- The acceptance test applied to one candidate combination by
`generate_all_schedules`, with the checks in source order: language bounds
(a bound of -1 means unlimited), weekends, distinct days, then the
all-pairs time-conflict test. -/
def scheduleOk (maxE maxF : Int) (noWeekends : Bool) (maxDays : Option Nat)
    (combo : Schedule) : Bool :=
  if maxE ≠ -1 ∧ maxE < (langCount Lang.english combo : Int) then false
  else if maxF ≠ -1 ∧ maxF < (langCount Lang.french combo : Int) then false
  else if noWeekends && has_weekend_classes combo then false
  else if (match maxDays with
           | some k => decide (k < count_unique_days combo)
           | none => false) then false
  else !hasConflict (allTimes combo)

/-- `generate_all_schedules` of `scheduler.py`: build every course's option
list (English then French sections), iterate the cartesian product of those
lists and append each combination that passes the checks to the result. -/
def generate_all_schedules (courses_data : List (String × LangSections))
    (maxE maxF : Int) (noWeekends : Bool) (maxDays : Option Nat) :
    List Schedule :=
  let all_course_options := courses_data.map fun p => courseOptions p.1 p.2
  (listProd all_course_options).foldl
    (fun acc combo =>
      if scheduleOk maxE maxF noWeekends maxDays combo then acc ++ [combo]
      else acc)
    []

/-- In `count_languages` of `scheduler.py` the options are plain dicts and
`hasattr(option, 'language')` tests for an object attribute, not a dict
key; on a dict instance it is False whatever keys the dict holds. -/
def option_hasattr_language (_o : EnrollmentOption) : Bool := false

/-- `count_languages` of `scheduler.py`: both counters start at 0 and are
only incremented under the `hasattr` guard. -/
def count_languages (schedule_combo : Schedule) : Nat × Nat :=
  schedule_combo.foldl
    (fun acc o =>
      if option_hasattr_language o then
        if o.language = Lang.english then (acc.1 + 1, acc.2)
        else (acc.1, acc.2 + 1)
      else acc)
    (0, 0)

/-- Rounding to four decimal places, modelling Python `round(x, 4)` on the
rational embedding of the float scores. -/
def round4 (q : ℚ) : ℚ := (round (q * 10000) : ℚ) / 10000

/-- The four inputs of `calculate_prof_score` in `prof_scoring.py`; a `none`
field models a key that is absent or bound to `None`. -/
structure ProfData where
  rmp_rating : Option ℚ
  rmp_difficulty : Option ℚ
  prof_overall_grade : Option ℚ
  avg_grade_in_courses : Option ℚ
deriving DecidableEq, Repr

/-- `calculate_prof_score` of `prof_scoring.py`: `None` for a missing record
or any missing input, otherwise
`round(rating - difficulty + overall + overall - avg, 4)`. -/
def calculate_prof_score : Option ProfData → Option ℚ
  | none => none
  | some d =>
    match d.rmp_rating, d.rmp_difficulty, d.prof_overall_grade,
        d.avg_grade_in_courses with
    | some r, some df, some og, some ag =>
      some (round4 (r - df + og + og - ag))
    | _, _, _, _ => none

/-- The professor data map handed to `calculate_schedule_score`: instructor
name to the `score` field of the cached entry (which may itself be `None`). -/
abbrev ProfMap := List (String × Option ℚ)

/-- One iteration of the loop of `calculate_schedule_score`: add the score
when the instructor is present with a non-`None` score, otherwise append the
instructor to the missing list. -/
def scoreStep (m : ProfMap) (acc : ℚ × List String) (o : EnrollmentOption) :
    ℚ × List String :=
  match m.lookup o.sec.instructor with
  | some (some sc) => (acc.1 + sc, acc.2)
  | _ => (acc.1, acc.2 ++ [o.sec.instructor])

/-- `calculate_schedule_score` of `prof_scoring.py`: fold the loop over the
schedule, return `None` when any instructor was missing, else the rounded
total. -/
def calculate_schedule_score (schedule : Schedule) (m : ProfMap) : Option ℚ :=
  let r := schedule.foldl (scoreStep m) (0, [])
  if r.2 ≠ [] then none else some (round4 r.1)

/-- The defined per-option scores of a schedule, in order; their sum is the
total accumulated by `calculate_schedule_score` when nothing is missing. -/
def totalScore (schedule : Schedule) (m : ProfMap) : ℚ :=
  (schedule.filterMap fun o => (m.lookup o.sec.instructor).join).sum

/-- Stable insertion into a list sorted descending by score: an element
moves ahead only of strictly smaller scores, so equal scores keep their
original order, as Python `list.sort(key=..., reverse=True)` guarantees. -/
def insertDesc (x : Schedule × ℚ) : List (Schedule × ℚ) → List (Schedule × ℚ)
  | [] => [x]
  | y :: ys => if y.2 < x.2 then x :: y :: ys else y :: insertDesc x ys

/-- Stable sort, descending by score. -/
def sortDesc : List (Schedule × ℚ) → List (Schedule × ℚ)
  | [] => []
  | x :: xs => insertDesc x (sortDesc xs)

/-- The ranking step of `main` in `scheduler.py`: keep the schedules whose
score is defined, sort them stably by score descending, drop the scores. -/
def rank_schedules (schedules : List Schedule) (m : ProfMap) : List Schedule :=
  let withScores := schedules.filterMap fun s =>
    (calculate_schedule_score s m).map fun sc => (s, sc)
  (sortDesc withScores).map Prod.fst

/-- Numeric value of a digit character, modelling Python `int(ch)` on a
single decimal digit. -/
def digitVal (c : Char) : Nat := c.toNat - 48

/-- `is_french` of `gatherer.py`: the digit at index 1 of the numeric code
is at least 5. Defined here for codes of length at least 2 (the source
assumes a four-digit code and would raise otherwise). -/
def is_french (course_code : List Char) : Bool :=
  decide (5 ≤ digitVal (course_code.getD 1 '0'))

/-- `language_equivalent` of `gatherer.py`: shift the designated digit by
+4 (English code) or -4 (French code). Faithful whenever that digit is a
decimal digit, so the shifted value is again a single digit. -/
def language_equivalent (course_code : List Char) : List Char :=
  course_code.set 1 (Char.ofNat (48 +
    ((digitVal (course_code.getD 1 '0') : Int) +
      4 * ((if is_french course_code then 0 else 1) * 2 - 1)).toNat))

/-- Concrete open lecture used by the example inputs. -/
def exLec : Component :=
  ⟨"L1", "A00-LEC", Status.OPEN, CompType.LEC, Day.MO, 30600, 36000, "Prof A"⟩

/-- Concrete open lab used by the example inputs. -/
def exLab1 : Component :=
  ⟨"B1", "A01-LAB", Status.OPEN, CompType.LAB, Day.TU, 30600, 36000, "Prof A"⟩

/-- Second concrete open lab used by the example inputs. -/
def exLab2 : Component :=
  ⟨"B2", "A02-LAB", Status.OPEN, CompType.LAB, Day.WE, 30600, 36000, "Prof A"⟩

/-- Concrete closed lecture used by the example inputs. -/
def exClosedLec : Component :=
  ⟨"L9", "A09-LEC", Status.CLOSED, CompType.LEC, Day.MO, 30600, 36000, "Prof A"⟩

/-- A section holding exactly one open lecture. -/
def exSection : Section := ⟨"A", "A", "Prof A", [exLec]⟩

/-- A section holding one open lecture and two open labs. -/
def exSectionLabs : Section := ⟨"B", "B", "Prof A", [exLec, exLab1, exLab2]⟩

/-- A section holding a single closed lecture. -/
def exBadSection : Section := ⟨"C", "C", "Prof A", [exClosedLec]⟩

/-- A section with no components at all. -/
def emptySection : Section := ⟨"E", "E", "Prof A", []⟩

/-- Example course data: one course with one English section. -/
def exData : List (String × LangSections) := [("ITI1100", ⟨[exSection], []⟩)]

/-- The single schedule the example course data generates. -/
def exSched : Schedule := [⟨exSection, [exLec], Lang.english, "ITI1100"⟩]

/-- Example professor score map covering the example instructor. -/
def exMap : ProfMap := [("Prof A", some 3)]

lemma foldl_push_eq_filter {α : Type} (p : α → Bool) :
    ∀ (l acc : List α),
      l.foldl (fun a x => if p x then a ++ [x] else a) acc = acc ++ l.filter p
  | [], acc => by simp
  | x :: l, acc => by
    by_cases h : p x <;>
      simp [List.foldl_cons, h, foldl_push_eq_filter p l, List.filter_cons]

lemma mem_listProd {α : Type} :
    ∀ (ls : List (List α)) (ps : List α),
      ps ∈ listProd ls ↔ List.Forall₂ (fun x xs => x ∈ xs) ps ls
  | [], ps => by simp [listProd, List.forall₂_nil_right_iff]
  | xs :: rest, ps => by
    simp only [listProd, List.mem_flatMap, List.mem_map,
      List.forall₂_cons_right_iff]
    constructor
    · rintro ⟨x, hx, qs, hqs, rfl⟩
      exact ⟨x, qs, hx, (mem_listProd rest qs).mp hqs, rfl⟩
    · rintro ⟨x, qs, hx, hqs, rfl⟩
      exact ⟨x, hx, qs, (mem_listProd rest qs).mpr hqs, rfl⟩

lemma sum_map_const_nat {α : Type} (k : Nat) :
    ∀ l : List α, (l.map fun _ => k).sum = l.length * k
  | [] => by simp
  | x :: l => by
    simp [sum_map_const_nat k l, Nat.succ_mul, Nat.add_comm]

lemma length_listProd {α : Type} :
    ∀ ls : List (List α), (listProd ls).length = (ls.map List.length).prod
  | [] => rfl
  | xs :: rest => by
    show (xs.flatMap fun x => (listProd rest).map fun ys => x :: ys).length = _
    rw [List.length_flatMap]
    have h1 : (xs.map (List.length ∘ fun x => (listProd rest).map fun ys => x :: ys)) =
        xs.map fun _ => (listProd rest).length := by simp [Function.comp_def]
    rw [h1, sum_map_const_nat, length_listProd rest]
    simp [List.prod_cons]

lemma compsOfType_openComps (t : CompType) (cs : List Component) :
    compsOfType t (openComps cs) = openComps (compsOfType t cs) := by
  simp [compsOfType, openComps, List.filter_filter, Bool.and_comm]

lemma times_conflict_eq_false_iff (t1 t2 : TimeTuple) :
    times_conflict t1 t2 = false ↔
      t1.day ≠ t2.day ∨ t1.endM ≤ t2.startM ∨ t2.endM ≤ t1.startM := by
  by_cases h : t1.day = t2.day
  · simp [times_conflict, h]
    omega
  · simp [times_conflict, h]

lemma hasConflict_eq_false_iff :
    ∀ ts : List TimeTuple,
      hasConflict ts = false ↔ ts.Pairwise fun a b => times_conflict a b = false
  | [] => by simp [hasConflict]
  | t :: rest => by
    simp [hasConflict, List.any_eq_false, hasConflict_eq_false_iff rest,
      List.pairwise_cons]

lemma generate_all_schedules_eq (cd : List (String × LangSections))
    (me mf : Int) (nw : Bool) (md : Option Nat) :
    generate_all_schedules cd me mf nw md =
      (listProd (cd.map fun p => courseOptions p.1 p.2)).filter
        (scheduleOk me mf nw md) := by
  unfold generate_all_schedules
  simpa using foldl_push_eq_filter (scheduleOk me mf nw md)
    (listProd (cd.map fun p => courseOptions p.1 p.2)) []

lemma scheduleOk_true_no_conflict {me mf : Int} {nw : Bool} {md : Option Nat}
    {combo : Schedule} (h : scheduleOk me mf nw md combo = true) :
    hasConflict (allTimes combo) = false := by
  unfold scheduleOk at h
  split_ifs at h <;> simp_all

lemma scheduleOk_true_lang {me mf : Int} {nw : Bool} {md : Option Nat}
    {combo : Schedule} (h : scheduleOk me mf nw md combo = true) :
    (me ≠ -1 → (langCount Lang.english combo : Int) ≤ me) ∧
    (mf ≠ -1 → (langCount Lang.french combo : Int) ≤ mf) := by
  unfold scheduleOk at h
  split_ifs at h <;> simp_all

lemma scoreFold (m : ProfMap) :
    ∀ (l : Schedule) (acc : ℚ × List String),
      l.foldl (scoreStep m) acc =
        (acc.1 + (l.filterMap fun o => (m.lookup o.sec.instructor).join).sum,
         acc.2 ++ (l.filter fun o =>
            decide ((m.lookup o.sec.instructor).join = none)).map
              fun o => o.sec.instructor)
  | [], acc => by simp
  | o :: l, acc => by
    rcases hl : m.lookup o.sec.instructor with _ | sc
    · simp [scoreStep, hl, scoreFold m l, List.filter_cons, Option.join]
    · rcases sc with _ | q
      · simp [scoreStep, hl, scoreFold m l, List.filter_cons, Option.join]
      · simp [scoreStep, hl, scoreFold m l, List.filter_cons, Option.join,
          add_assoc]

lemma calculate_schedule_score_eq (s : Schedule) (m : ProfMap) :
    calculate_schedule_score s m =
      if ∃ o ∈ s, (m.lookup o.sec.instructor).join = none then none
      else some (round4 (totalScore s m)) := by
  unfold calculate_schedule_score totalScore
  rw [scoreFold]
  by_cases hbad : ∃ o ∈ s, (m.lookup o.sec.instructor).join = none
  · rw [if_pos hbad]
    obtain ⟨o, ho, hno⟩ := hbad
    have hfil : (s.filter fun o =>
        decide ((m.lookup o.sec.instructor).join = none)) ≠ [] := by
      intro hemp
      have h2 := List.filter_eq_nil_iff.mp hemp o ho
      simp only [decide_eq_true_eq] at h2
      exact h2 hno
    have hmap : ((s.filter fun o =>
        decide ((m.lookup o.sec.instructor).join = none)).map
          fun o => o.sec.instructor) ≠ [] := by
      simpa using hfil
    simp only [List.nil_append]
    rw [if_pos hmap]
  · rw [if_neg hbad]
    have hfil : (s.filter fun o =>
        decide ((m.lookup o.sec.instructor).join = none)) = [] := by
      rw [List.filter_eq_nil_iff]
      intro o ho
      simp only [decide_eq_true_eq]
      exact fun hno => hbad ⟨o, ho, hno⟩
    simp only [hfil, List.map_nil, List.nil_append, zero_add]
    simp

lemma mem_insertDesc (x a : Schedule × ℚ) :
    ∀ l : List (Schedule × ℚ), a ∈ insertDesc x l ↔ a = x ∨ a ∈ l
  | [] => by simp [insertDesc]
  | y :: ys => by
    by_cases h : y.2 < x.2 <;>
      simp [insertDesc, h, mem_insertDesc x a ys] <;> tauto

lemma mem_sortDesc (a : Schedule × ℚ) :
    ∀ l : List (Schedule × ℚ), a ∈ sortDesc l ↔ a ∈ l
  | [] => Iff.rfl
  | x :: xs => by
    simp [sortDesc, mem_insertDesc, mem_sortDesc a xs]

lemma mem_rank_schedules (s : Schedule) (ss : List Schedule) (m : ProfMap) :
    s ∈ rank_schedules ss m ↔
      s ∈ ss ∧ calculate_schedule_score s m ≠ none := by
  unfold rank_schedules
  simp only [List.mem_map, mem_sortDesc, List.mem_filterMap,
    Option.map_eq_some']
  constructor
  · rintro ⟨⟨s1, q⟩, ⟨s2, hs2, sc, hsc, heq⟩, rfl⟩
    cases heq
    simp only
    exact ⟨hs2, by simp [hsc]⟩
  · rintro ⟨hs, hne⟩
    obtain ⟨q, hq⟩ := Option.ne_none_iff_exists.mp hne
    exact ⟨(s, q), ⟨s, hs, q, hq.symm, rfl⟩, rfl⟩

/-- C1: every schedule returned by `generate_all_schedules` is conflict-free:
for every pair of components at distinct positions of its flattened time
list, the days map to different indices, or the first ends no later than the
second starts, or the second ends no later than the first starts (so
touching boundaries are not a conflict). -/
theorem schedules_have_no_time_conflicts (cd : List (String × LangSections))
    (me mf : Int) (nw : Bool) (md : Option Nat) (s : Schedule)
    (hs : s ∈ generate_all_schedules cd me mf nw md) :
    (allTimes s).Pairwise fun t1 t2 =>
      t1.day ≠ t2.day ∨ t1.endM ≤ t2.startM ∨ t2.endM ≤ t1.startM := by
  rw [generate_all_schedules_eq] at hs
  have hok : scheduleOk me mf nw md s = true := (List.mem_filter.mp hs).2
  have hnc := scheduleOk_true_no_conflict hok
  exact ((hasConflict_eq_false_iff _).mp hnc).imp
    fun h => (times_conflict_eq_false_iff _ _).mp h

/-- Witness for C1 at concrete course data with one open lecture. -/
theorem schedules_have_no_time_conflicts_witness :
    (allTimes exSched).Pairwise fun t1 t2 =>
      t1.day ≠ t2.day ∨ t1.endM ≤ t2.startM ∨ t2.endM ≤ t1.startM :=
  schedules_have_no_time_conflicts exData (-1) (-1) false none exSched
    (by decide)

/-- C5: `generate_all_schedules` returns exactly the members of the
cartesian product of the per-course option lists (courses in caller order,
English then French sections per course, options in list order) that pass
the acceptance test, keeping the enumeration order of the product, i.e. it
is the order-preserving filtered subsequence of the product. -/
theorem enumeration_is_ordered_filter_of_product
    (cd : List (String × LangSections)) (me mf : Int) (nw : Bool)
    (md : Option Nat) :
    generate_all_schedules cd me mf nw md =
      (listProd (cd.map fun p => courseOptions p.1 p.2)).filter
        (scheduleOk me mf nw md) ∧
    ∀ s, s ∈ generate_all_schedules cd me mf nw md ↔
      s ∈ listProd (cd.map fun p => courseOptions p.1 p.2) ∧
        scheduleOk me mf nw md s = true := by
  refine ⟨generate_all_schedules_eq cd me mf nw md, fun s => ?_⟩
  rw [generate_all_schedules_eq, List.mem_filter]

/-- C6: every schedule returned by `generate_all_schedules` respects the
language bounds: when a bound is not the unlimited sentinel -1, the number
of options tagged with that language does not exceed it. -/
theorem language_bounds_respected (cd : List (String × LangSections))
    (me mf : Int) (nw : Bool) (md : Option Nat) (s : Schedule)
    (hs : s ∈ generate_all_schedules cd me mf nw md) :
    (me ≠ -1 → (langCount Lang.english s : Int) ≤ me) ∧
    (mf ≠ -1 → (langCount Lang.french s : Int) ≤ mf) := by
  rw [generate_all_schedules_eq] at hs
  exact scheduleOk_true_lang (List.mem_filter.mp hs).2

/-- Witness for C6 with bounded limits of one English and zero French
courses. -/
theorem language_bounds_respected_witness :
    (langCount Lang.english exSched : Int) ≤ 1 ∧
    (langCount Lang.french exSched : Int) ≤ 0 :=
  ⟨(language_bounds_respected exData 1 0 false none exSched (by decide)).1
      (by decide),
   (language_bounds_respected exData 1 0 false none exSched (by decide)).2
      (by decide)⟩

/-- C10: `count_languages` returns (0, 0) on every input: its
`hasattr(option, 'language')` guard is false for the dict-shaped options, so
neither counter is ever incremented. -/
theorem count_languages_always_zero (combo : Schedule) :
    count_languages combo = (0, 0) := by
  suffices h : ∀ (l : Schedule) (acc : Nat × Nat),
      l.foldl
        (fun acc o =>
          if option_hasattr_language o then
            if o.language = Lang.english then (acc.1 + 1, acc.2)
            else (acc.1, acc.2 + 1)
          else acc)
        acc = acc from h combo (0, 0)
  intro l
  induction l with
  | nil => intro acc; rfl
  | cons o l ih =>
    intro acc
    rw [List.foldl_cons]
    simp only [option_hasattr_language, Bool.false_eq_true, if_false]
    exact ih acc

lemma length_filter_lt_of_mem_not {α : Type} (p : α → Bool) :
    ∀ {l : List α} {x : α}, x ∈ l → p x = false →
      (l.filter p).length < l.length := by
  intro l
  induction l with
  | nil => intro x hx; cases hx
  | cons a l ih =>
    intro x hx hpx
    rcases List.mem_cons.mp hx with rfl | hx
    · rw [List.filter_cons, if_neg (by simp [hpx])]
      exact Nat.lt_succ_of_le (List.length_filter_le p l)
    · rw [List.filter_cons]
      split
      · simpa using ih hx hpx
      · exact Nat.lt_succ_of_lt (ih hx hpx)

/-- C3: `generate_section_options` returns the empty list when the section
has a lecture that is not OPEN, and likewise when some offered non-lecture
type has no OPEN instance. -/
theorem section_discarded_without_open_components (s : Section)
    (h : (compsOfType CompType.LEC s.components ≠ [] ∧
            ∃ c ∈ compsOfType CompType.LEC s.components,
              c.status ≠ Status.OPEN) ∨
         (∃ t ∈ nonLecTypes, compsOfType t s.components ≠ [] ∧
            compsOfType t (openComps s.components) = [])) :
    generate_section_options s = [] := by
  unfold generate_section_options
  rcases h with ⟨hne, c, hc, hcs⟩ | ⟨t, ht, hne, hopen⟩
  · rw [if_pos]
    refine ⟨List.length_pos.mpr hne, ?_⟩
    rw [compsOfType_openComps]
    have hlt : (openComps (compsOfType CompType.LEC s.components)).length <
        (compsOfType CompType.LEC s.components).length := by
      unfold openComps
      exact length_filter_lt_of_mem_not _ hc (by simp [hcs])
    omega
  · by_cases h1 : 0 < (compsOfType CompType.LEC s.components).length ∧
        (compsOfType CompType.LEC s.components).length ≠
          (compsOfType CompType.LEC (openComps s.components)).length
    · rw [if_pos h1]
    · rw [if_neg h1, if_pos ⟨t, ht, List.length_pos.mpr hne, by simp [hopen]⟩]

/-- Witness for C3 at a section whose only lecture is closed. -/
theorem section_discarded_witness : generate_section_options exBadSection = [] :=
  section_discarded_without_open_components exBadSection
    (Or.inl ⟨by decide, exClosedLec, by decide, by decide⟩)

/-- C4 counterexample: the section with zero components yields one option
(holding an empty component list), not the empty list the claim states. -/
theorem empty_section_yields_an_option :
    generate_section_options emptySection = [⟨emptySection, []⟩] ∧
    generate_section_options emptySection ≠ [] := by decide

/-- C4 amended: a section whose components are exactly its lectures (at
least one LEC, all OPEN, nothing of any non-lecture type) yields exactly one
option containing precisely those lectures; and a section with zero
components yields exactly one option whose component list is empty. -/
theorem lecture_only_and_empty_section_options (s : Section) :
    (compsOfType CompType.LEC s.components ≠ [] →
      (∀ c ∈ s.components, c.type = CompType.LEC ∧ c.status = Status.OPEN) →
      generate_section_options s =
        [⟨s, compsOfType CompType.LEC s.components⟩]) ∧
    (s.components = [] → generate_section_options s = [⟨s, []⟩]) := by
  constructor
  · intro hne hall
    have hopen : openComps s.components = s.components :=
      List.filter_eq_self.mpr fun c hc => by simp [(hall c hc).2]
    have htypes : ∀ t ∈ nonLecTypes, compsOfType t s.components = [] := by
      intro t ht
      refine List.filter_eq_nil_iff.mpr fun c hc => ?_
      have h1 := (hall c hc).1
      have h2 : t ≠ CompType.LEC := by
        rintro rfl
        revert ht
        decide
      simp only [decide_eq_true_eq, h1]
      exact fun heq => h2 heq.symm
    have hch : ∀ t ∈ nonLecTypes, choicesFor s t = [[]] := by
      intro t ht
      unfold choicesFor
      rw [if_neg]
      simp [htypes t ht]
    have hc1 : ¬(0 < (compsOfType CompType.LEC s.components).length ∧
        (compsOfType CompType.LEC s.components).length ≠
          (compsOfType CompType.LEC (openComps s.components)).length) := by
      rw [hopen]
      rintro ⟨_, hne2⟩
      exact hne2 rfl
    have hc2 : ¬∃ t ∈ nonLecTypes, 0 < (compsOfType t s.components).length ∧
        (compsOfType t (openComps s.components)).length = 0 := by
      rintro ⟨t, ht, hpos, _⟩
      rw [htypes t ht] at hpos
      simp at hpos
    unfold generate_section_options
    rw [if_neg hc1, if_neg hc2]
    have hmap : nonLecTypes.map (choicesFor s) = [[[]], [[]], [[]], [[]], [[]]] := by
      simp [nonLecTypes, hch CompType.LAB (by decide), hch CompType.TUT (by decide),
        hch CompType.DGD (by decide), hch CompType.SEM (by decide),
        hch CompType.WRK (by decide)]
    rw [hmap, hopen]
    simp [listProd]
  · intro h0
    unfold generate_section_options
    simp [compsOfType, openComps, choicesFor, nonLecTypes, listProd, h0]

/-- Witness for the amended C4 at the lecture-only example section. -/
theorem lecture_only_section_witness :
    generate_section_options exSection =
      [⟨exSection, compsOfType CompType.LEC exSection.components⟩] :=
  (lecture_only_and_empty_section_options exSection).1 (by decide) (by decide)

/-- C2: when `generate_section_options` returns a non-empty list, every
returned option consists of exactly the OPEN lectures of the section
followed by, for each offered non-lecture type, exactly one OPEN component
of that type (and nothing for types the section does not offer); and the
number of options is the product over the non-lecture types of the count of
OPEN components for offered types (an absent type contributing factor 1). -/
theorem section_options_shape_and_count (s : Section)
    (h : generate_section_options s ≠ []) :
    (∀ o ∈ generate_section_options s, ∃ parts : List (List Component),
        o.sec = s ∧
        o.components =
          compsOfType CompType.LEC (openComps s.components) ++ parts.flatten ∧
        List.Forall₂ (fun part t =>
            (0 < (compsOfType t s.components).length ∧
              ∃ c ∈ compsOfType t (openComps s.components), part = [c]) ∨
            ((compsOfType t s.components).length = 0 ∧ part = []))
          parts nonLecTypes) ∧
    (generate_section_options s).length =
      (nonLecTypes.map fun t =>
        if 0 < (compsOfType t s.components).length then
          (compsOfType t (openComps s.components)).length
        else 1).prod := by
  by_cases hc1 : 0 < (compsOfType CompType.LEC s.components).length ∧
      (compsOfType CompType.LEC s.components).length ≠
        (compsOfType CompType.LEC (openComps s.components)).length
  · exfalso
    apply h
    unfold generate_section_options
    rw [if_pos hc1]
  by_cases hc2 : ∃ t ∈ nonLecTypes, 0 < (compsOfType t s.components).length ∧
      (compsOfType t (openComps s.components)).length = 0
  · exfalso
    apply h
    unfold generate_section_options
    rw [if_neg hc1, if_pos hc2]
  have hgen : generate_section_options s =
      (listProd (nonLecTypes.map (choicesFor s))).map fun parts =>
        ⟨s, compsOfType CompType.LEC (openComps s.components) ++
          parts.flatten⟩ := by
    unfold generate_section_options
    rw [if_neg hc1, if_neg hc2]
  constructor
  · intro o ho
    rw [hgen, List.mem_map] at ho
    obtain ⟨parts, hp, rfl⟩ := ho
    refine ⟨parts, rfl, rfl, ?_⟩
    have h2 := (mem_listProd _ _).mp hp
    have h3 := List.forall₂_map_right_iff.mp h2
    refine h3.imp fun {part t} hmem => ?_
    unfold choicesFor at hmem
    by_cases hoff : 0 < (compsOfType t s.components).length
    · rw [if_pos hoff] at hmem
      rw [List.mem_map] at hmem
      obtain ⟨c, hc, rfl⟩ := hmem
      exact Or.inl ⟨hoff, c, hc, rfl⟩
    · rw [if_neg hoff] at hmem
      simp only [List.mem_singleton] at hmem
      exact Or.inr ⟨Nat.eq_zero_of_le_zero (Nat.le_of_not_lt hoff), hmem⟩
  · rw [hgen, List.length_map, length_listProd, List.map_map]
    congr 1
    apply List.map_congr_left
    intro t _
    simp only [Function.comp_apply]
    unfold choicesFor
    by_cases hoff : 0 < (compsOfType t s.components).length
    · rw [if_pos hoff, if_pos hoff, List.length_map]
    · rw [if_neg hoff, if_neg hoff]
      rfl

/-- Witness for C2 at a section with one open lecture and two open labs. -/
theorem section_options_count_witness :
    (generate_section_options exSectionLabs).length =
      (nonLecTypes.map fun t =>
        if 0 < (compsOfType t exSectionLabs.components).length then
          (compsOfType t (openComps exSectionLabs.components)).length
        else 1).prod :=
  (section_options_shape_and_count exSectionLabs (by decide)).2

/-- C7: a schedule's score is undefined (None) exactly when some option's
section-level instructor is absent from the provider map or has a None
score; otherwise it is the rounded sum of the per-instructor scores; and the
ranked output contains exactly the input schedules whose score is defined,
so an undefined score excludes a schedule from ranking without being an
error (the unranked list is an input left untouched). -/
theorem score_undefined_iff_missing_and_rank_excludes (sch : Schedule)
    (m : ProfMap) (ss : List Schedule) :
    (calculate_schedule_score sch m = none ↔
      ∃ o ∈ sch, (m.lookup o.sec.instructor).join = none) ∧
    ((∀ o ∈ sch, (m.lookup o.sec.instructor).join ≠ none) →
      calculate_schedule_score sch m = some (round4 (totalScore sch m))) ∧
    (sch ∈ rank_schedules ss m ↔
      sch ∈ ss ∧ calculate_schedule_score sch m ≠ none) := by
  refine ⟨?_, ?_, mem_rank_schedules sch ss m⟩
  · rw [calculate_schedule_score_eq]
    by_cases hbad : ∃ o ∈ sch, (m.lookup o.sec.instructor).join = none
    · simp [hbad]
    · simp [hbad]
  · intro hall
    rw [calculate_schedule_score_eq, if_neg]
    rintro ⟨o, ho, hno⟩
    exact hall o ho hno

/-- Witness for C7 at the example schedule and a map with a defined score. -/
theorem score_defined_witness :
    calculate_schedule_score exSched exMap =
      some (round4 (totalScore exSched exMap)) :=
  (score_undefined_iff_missing_and_rank_excludes exSched exMap []).2.1
    (by decide)

/-- C8: the per-instructor score is defined exactly on a record with all
four inputs present and then equals the rounded value of
rating - difficulty + 2 * overallGrade - avgGradeInCourses; it is undefined
when the record is missing or any input is absent. -/
theorem prof_score_formula_characterization (pd : Option ProfData) (q : ℚ) :
    (calculate_prof_score pd = some q ↔
      ∃ r df og ag, pd = some ⟨some r, some df, some og, some ag⟩ ∧
        q = round4 (r - df + 2 * og - ag)) ∧
    (calculate_prof_score pd = none ↔
      ∀ r df og ag, pd ≠ some ⟨some r, some df, some og, some ag⟩) := by
  rcases pd with _ | ⟨_ | r, _ | df, _ | og, _ | ag⟩ <;>
    simp [calculate_prof_score]
  have harg : r - df + og + og - ag = r - df + 2 * og - ag := by ring
  rw [harg]
  constructor
  · rintro rfl
    exact ⟨r, df, og, ag, ⟨rfl, rfl, rfl, rfl⟩, rfl⟩
  · rintro ⟨r1, df1, og1, ag1, ⟨rfl, rfl, rfl, rfl⟩, rfl⟩
    rfl

lemma char_toNat_ofNat_digit : ∀ n, n < 10 → (Char.ofNat (48 + n)).toNat = 48 + n := by
  decide

lemma char_eq_of_toNat_eq {a b : Char} (h : a.toNat = b.toNat) : a = b :=
  Char.ext (UInt32.ext h)

lemma is_french_cons (a c : Char) (t : List Char) :
    is_french (a :: c :: t) = decide (5 ≤ digitVal c) := rfl

lemma language_equivalent_cons (a c : Char) (t : List Char) :
    language_equivalent (a :: c :: t) =
      a :: Char.ofNat (48 +
        (if 5 ≤ digitVal c then digitVal c - 4 else digitVal c + 4)) :: t := by
  unfold language_equivalent
  simp only [is_french_cons, List.getD_cons_succ, List.getD_cons_zero,
    List.set_cons_succ, List.set_cons_zero]
  by_cases hf : 5 ≤ digitVal c
  · rw [if_pos hf]
    simp only [decide_eq_true hf, eq_self_iff_true, if_true]
    have harith : ((digitVal c : Int) + 4 * ((0 : Int) * 2 - 1)).toNat =
        digitVal c - 4 := by omega
    rw [harith]
  · rw [if_neg hf]
    simp only [decide_eq_false hf, Bool.false_eq_true, if_false]
    have harith : ((digitVal c : Int) + 4 * ((1 : Int) * 2 - 1)).toNat =
        digitVal c + 4 := by omega
    rw [harith]

/-- C9 counterexample: for the code with designated digit 9 the shifted
digit 5 is still French, so the language does not flip and the double
application of `language_equivalent` does not return the original code. -/
theorem language_digit_rules_counterexample :
    is_french (language_equivalent ['1', '9', '0', '0']) =
      is_french ['1', '9', '0', '0'] ∧
    language_equivalent (language_equivalent ['1', '9', '0', '0']) ≠
      ['1', '9', '0', '0'] := by decide

/-- C9 amended: for a code whose designated digit (index 1) is a decimal
digit, `is_french` holds iff that digit is at least 5, and
`language_equivalent` shifts the digit by +4 for an English code and -4 for
a French one; when moreover the digit lies between 1 and 8 (so both the
digit and its shift stay in the digit range on each side), the language of
the equivalent code differs and applying `language_equivalent` twice
returns the original code. -/
theorem language_digit_rules (code : List Char) (c : Char)
    (h1 : code[1]? = some c) (h2 : 48 ≤ c.toNat ∧ c.toNat ≤ 57) :
    (is_french code = true ↔ 5 ≤ digitVal c) ∧
    (∃ c2, (language_equivalent code)[1]? = some c2 ∧
      48 ≤ c2.toNat ∧ c2.toNat ≤ 57 ∧
      digitVal c2 =
        (if 5 ≤ digitVal c then digitVal c - 4 else digitVal c + 4)) ∧
    (1 ≤ digitVal c → digitVal c ≤ 8 →
      is_french (language_equivalent code) ≠ is_french code ∧
      language_equivalent (language_equivalent code) = code) := by
  obtain ⟨hlo, hhi⟩ := h2
  have hd9 : digitVal c ≤ 9 := by
    unfold digitVal
    omega
  rcases code with _ | ⟨a, _ | ⟨b, t⟩⟩
  · simp at h1
  · simp at h1
  have hb : c = b := by
    have := h1
    simp at this
    exact this.symm
  subst hb
  have hshift9 : (if 5 ≤ digitVal c then digitVal c - 4 else digitVal c + 4) < 10 := by
    split <;> omega
  have hc2nat : (Char.ofNat (48 +
      (if 5 ≤ digitVal c then digitVal c - 4 else digitVal c + 4))).toNat =
      48 + (if 5 ≤ digitVal c then digitVal c - 4 else digitVal c + 4) :=
    char_toNat_ofNat_digit _ hshift9
  refine ⟨?_, ?_, ?_⟩
  · rw [is_french_cons]
    simp
  · rw [language_equivalent_cons]
    refine ⟨Char.ofNat (48 +
      (if 5 ≤ digitVal c then digitVal c - 4 else digitVal c + 4)),
      by simp, ?_, ?_, ?_⟩
    · rw [hc2nat]
      omega
    · rw [hc2nat]
      omega
    · show (Char.ofNat (48 +
        (if 5 ≤ digitVal c then digitVal c - 4 else digitVal c + 4))).toNat - 48 =
          (if 5 ≤ digitVal c then digitVal c - 4 else digitVal c + 4)
      rw [hc2nat]
      omega
  · intro hge1 hle8
    have hd2 : digitVal (Char.ofNat (48 +
        (if 5 ≤ digitVal c then digitVal c - 4 else digitVal c + 4))) =
        (if 5 ≤ digitVal c then digitVal c - 4 else digitVal c + 4) := by
      show (Char.ofNat (48 +
        (if 5 ≤ digitVal c then digitVal c - 4 else digitVal c + 4))).toNat - 48 =
          (if 5 ≤ digitVal c then digitVal c - 4 else digitVal c + 4)
      rw [hc2nat]
      omega
    rw [language_equivalent_cons]
    constructor
    · rw [is_french_cons, is_french_cons, hd2]
      by_cases hf : 5 ≤ digitVal c
      · rw [if_pos hf]
        simp only [ne_eq, decide_eq_decide]
        omega
      · rw [if_neg hf]
        simp only [ne_eq, decide_eq_decide]
        omega
    · rw [language_equivalent_cons, hd2]
      have hback : (if 5 ≤ (if 5 ≤ digitVal c then digitVal c - 4
              else digitVal c + 4) then
            (if 5 ≤ digitVal c then digitVal c - 4 else digitVal c + 4) - 4
          else
            (if 5 ≤ digitVal c then digitVal c - 4 else digitVal c + 4) + 4) =
          digitVal c := by
        by_cases hf : 5 ≤ digitVal c <;> simp only [hf, if_true, if_false] <;>
          split <;> omega
      rw [hback]
      have hcc : Char.ofNat (48 + digitVal c) = c := by
        apply char_eq_of_toNat_eq
        rw [char_toNat_ofNat_digit _ (by omega)]
        unfold digitVal
        omega
      rw [hcc]

/-- Witness for the amended C9 at the English code 1100. -/
theorem language_digit_rules_witness :
    is_french (language_equivalent ['1', '1', '0', '0']) ≠
      is_french ['1', '1', '0', '0'] ∧
    language_equivalent (language_equivalent ['1', '1', '0', '0']) =
      ['1', '1', '0', '0'] :=
  (language_digit_rules ['1', '1', '0', '0'] '1' (by decide)
    (by decide)).2.2 (by decide) (by decide)

end Scheduler
